import Mathlib

/-!
Verification development for the Bayesian diagnostic engine.

The probabilistic core lives in `bayesian_tools.py` (belief-state validation,
normalization, Bayesian update, session lifecycle) and the likelihood
derivation / merge step lives in `decision.py` and `medical_knowledge.py`.
Python dicts are embedded as insertion-ordered association lists over `String`,
and Python floats as rationals (`ℚ`); the validation behaviour on the
non-finite IEEE values NaN and ±infinity is modelled separately with an
extended value type `PyVal`.
-/

deriving instance DecidableEq for Except

namespace BayesSpec

/-- Belief maps: Python `Dict[str, float]` as an insertion-ordered association
list from hypothesis name to probability. -/
abbrev Beliefs := List (String × ℚ)

/-- First-match association-list lookup: `d.get(k)` on a Python dict. -/
def alookup {α : Type} : List (String × α) → String → Option α
  | [], _ => none
  | p :: rest, h => if p.1 = h then some p.2 else alookup rest h

/-- The keys of a map, in insertion order. -/
def keys {α : Type} (b : List (String × α)) : List String := b.map Prod.fst

/-- The values of a map, in insertion order. -/
def values {α : Type} (b : List (String × α)) : List α := b.map Prod.snd

/-- Python `d.get(h, 0.0)`. -/
def getD (b : Beliefs) (h : String) : ℚ := (alookup b h).getD 0

/-- `sum(d.values())`. -/
def sumValues (b : Beliefs) : ℚ := (values b).sum

/-- The error conditions raised by the tools in `bayesian_tools.py`
(`InvalidBeliefsError`, `BeliefsNotInitializedError`, `ValueError`), keyed by
the message each `raise` site carries. -/
inductive BeliefsError
  /-- "Beliefs dictionary cannot be empty." -/
  | emptyBeliefs
  /-- "All belief probabilities must be non-negative." -/
  | negativeProb
  /-- "Belief probabilities must sum to approximately 1.0 (got total)" -/
  | sumNotOne (total : ℚ)
  /-- "Belief state has not been initialized." -/
  | notInitialized
  /-- "Evidence string cannot be empty." -/
  | emptyEvidence
  /-- "Prior probabilities cannot be empty." -/
  | emptyPriors
  /-- "Likelihood dictionary cannot be empty." -/
  | emptyLikelihoods
  /-- "Missing likelihoods for hypotheses: missing" -/
  | missingLikelihoods (missing : List String)
  /-- "Evidence is impossible given current beliefs. Cannot update." -/
  | impossibleEvidence (evidence : String)
  deriving Repr, DecidableEq

/-- `StateManager.validate_beliefs`.  The source also checks
`isinstance(p, (int, float))` for every value; in this rational-valued
embedding every value is a finite number, so that check is identically true
(it is modelled faithfully over extended values in `validateF` below). -/
def validate_beliefs (beliefs : Beliefs) : Except BeliefsError Unit :=
  if beliefs = [] then .error .emptyBeliefs
  else if (values beliefs).any (fun p => decide (p < 0)) then .error .negativeProb
  else if 99/100 ≤ sumValues beliefs ∧ sumValues beliefs ≤ 101/100 then .ok ()
  else .error (.sumNotOne (sumValues beliefs))

/-- `StateManager.update_beliefs`: validate, and only on success overwrite the
stored `_beliefs`; a validation failure raises before the assignment, so the
stored state is returned unchanged. -/
def update_beliefs (s new_beliefs : Beliefs) : Except BeliefsError Unit × Beliefs :=
  match validate_beliefs new_beliefs with
  | .error e => (.error e, s)
  | .ok _ => (.ok (), new_beliefs)

/-- `StateManager.clear_beliefs`: `_beliefs = {}`. -/
def clear_beliefs (_ : Beliefs) : Beliefs := []

/-- The `StateManager.beliefs` property: raises `BeliefsNotInitializedError`
on an empty map, otherwise returns (a copy of) the stored map. -/
def beliefsOf (s : Beliefs) : Except BeliefsError Beliefs :=
  if s = [] then .error .notInitialized else .ok s

/-- `_normalize_beliefs`: divide every value by the total; if the total is
exactly 0, return the input unchanged. -/
def normalize_beliefs (beliefs : Beliefs) : Beliefs :=
  if sumValues beliefs = 0 then beliefs
  else beliefs.map (fun hp => (hp.1, hp.2 / sumValues beliefs))

/-- The `initialize_beliefs` tool: reject empty priors, normalize, then store
through `update_beliefs` (which validates) and return the stored state.
Raised errors are caught by the tool and reported; the pair is
(returned result, stored state after the call). -/
def initialize_beliefs (s priors : Beliefs) : Except BeliefsError Beliefs × Beliefs :=
  if priors = [] then (.error .emptyPriors, s)
  else
    match update_beliefs s (normalize_beliefs priors) with
    | (.error e, s1) => (.error e, s1)
    | (.ok _, s1) =>
      match beliefsOf s1 with
      | .error e => (.error e, s1)
      | .ok current => (.ok current, s1)

/-- `set(current.keys()) - set(likelihoods.keys())`, as the (duplicate-free,
since dict keys are unique) list of keys of `current` absent from
`likelihoods`, in insertion order. -/
def missingOf (current likelihoods : Beliefs) : List String :=
  (keys current).filter (fun h => decide (h ∉ keys likelihoods))

/-- `posteriors_unnormalized`: for each hypothesis of the prior,
`likelihoods.get(hypo, 0.0) * current_beliefs.get(hypo, 0.0)`; for a key of
the dict, `current_beliefs.get(hypo, 0.0)` is its stored value. -/
def unnormalizedOf (current likelihoods : Beliefs) : Beliefs :=
  current.map (fun hp => (hp.1, getD likelihoods hp.1 * hp.2))

/-- `marginal_evidence_prob`. -/
def marginalOf (current likelihoods : Beliefs) : ℚ :=
  sumValues (unnormalizedOf current likelihoods)

/-- `new_posteriors`. -/
def posteriorOf (current likelihoods : Beliefs) : Beliefs :=
  (unnormalizedOf current likelihoods).map
    (fun hp => (hp.1, hp.2 / marginalOf current likelihoods))

/-- The `update_belief_with_evidence` tool, mirroring the guard order of the
source: empty evidence, empty likelihoods, uninitialized state, incomplete
likelihoods, zero marginal, then store the posterior through
`update_beliefs`. -/
def update_belief_with_evidence (s : Beliefs) (evidence : String)
    (likelihoods : Beliefs) : Except BeliefsError Beliefs × Beliefs :=
  if evidence = "" then (.error .emptyEvidence, s)
  else if likelihoods = [] then (.error .emptyLikelihoods, s)
  else
    match beliefsOf s with
    | .error e => (.error e, s)
    | .ok current =>
      if missingOf current likelihoods ≠ [] then
        (.error (.missingLikelihoods (missingOf current likelihoods)), s)
      else if marginalOf current likelihoods = 0 then
        (.error (.impossibleEvidence evidence), s)
      else
        match update_beliefs s (posteriorOf current likelihoods) with
        | (.error e, s1) => (.error e, s1)
        | (.ok _, s1) =>
          match beliefsOf s1 with
          | .error e => (.error e, s1)
          | .ok current1 => (.ok current1, s1)

/-- The four lifecycle operations a driver can invoke on the session. -/
inductive Op
  | init (priors : Beliefs)
  | update (evidence : String) (likelihoods : Beliefs)
  | query
  | clear

/-- Effect of each tool call on the stored `_beliefs`;
`get_current_diagnosis` only reads the state. -/
def stepState : Op → Beliefs → Beliefs
  | .init p, s => (initialize_beliefs s p).2
  | .update e l, s => (update_belief_with_evidence s e l).2
  | .query, s => s
  | .clear, s => clear_beliefs s

/-- Invariants I1 (non-empty), I2 (non-negative) and I3 (sum within ±0.01
of 1) of an initialized belief state. -/
def ValidBeliefs (b : Beliefs) : Prop :=
  b ≠ [] ∧ (∀ v ∈ values b, 0 ≤ v) ∧ 99/100 ≤ sumValues b ∧ sumValues b ≤ 101/100

instance (b : Beliefs) : Decidable (ValidBeliefs b) := by
  unfold ValidBeliefs; infer_instance

/-- The stored state is either empty (uninitialized / cleared) or a valid
distribution. -/
def BeliefInv (b : Beliefs) : Prop := b = [] ∨ ValidBeliefs b

instance (b : Beliefs) : Decidable (BeliefInv b) := by
  unfold BeliefInv; infer_instance

/- The Batteries arithmetic on `Rat` is marked irreducible, which would stop
`decide` and `rfl` from evaluating the definitions above on concrete inputs;
make it reducible again for the rest of this development. -/
unseal Rat.add Rat.mul Rat.inv Rat.sub Rat.ofScientific

/-! Basic lemmas about the association-list operations. -/

theorem alookup_eq_none_iff {α : Type} (b : List (String × α)) (h : String) :
    alookup b h = none ↔ h ∉ keys b := by
  induction b with
  | nil => simp [alookup, keys]
  | cons p rest ih =>
    by_cases hph : p.1 = h
    · subst hph; simp [alookup, keys]
    · simp [alookup, hph, ih, keys, Ne.symm hph]

theorem alookup_mem_keys {α : Type} (b : List (String × α)) (h : String) :
    h ∈ keys b ↔ ∃ v, alookup b h = some v := by
  rcases hv : alookup b h with _ | v
  · simp [(alookup_eq_none_iff b h).mp hv]
  · have : h ∈ keys b := by
      by_contra hk
      rw [← alookup_eq_none_iff b h] at hk
      rw [hv] at hk
      exact Option.noConfusion hk
    simp [this]

theorem alookup_mem_values {α : Type} (b : List (String × α)) (h : String) (v : α)
    (hv : alookup b h = some v) : v ∈ values b := by
  induction b with
  | nil => exact Option.noConfusion hv
  | cons p rest ih =>
    by_cases hph : p.1 = h
    · subst hph
      simp [alookup] at hv
      simp [values, hv]
    · simp [alookup, hph] at hv
      simp [values] at ih ⊢
      rcases ih hv with hm
      exact Or.inr hm

theorem getD_nonneg (l : Beliefs) (h : String) (hl : ∀ v ∈ values l, 0 ≤ v) :
    0 ≤ getD l h := by
  rcases hv : alookup l h with _ | v
  · simp [getD, hv]
  · simpa [getD, hv] using hl v (alookup_mem_values l h v hv)

theorem sumValues_map_div (b : Beliefs) (m : ℚ) :
    sumValues (b.map fun hp => (hp.1, hp.2 / m)) = sumValues b / m := by
  induction b with
  | nil => simp [sumValues, values]
  | cons p rest ih => simp [sumValues, values] at ih ⊢; rw [ih, add_div]

theorem sumValues_nonneg (b : Beliefs) (hb : ∀ v ∈ values b, 0 ≤ v) :
    0 ≤ sumValues b :=
  List.sum_nonneg hb

/-- `validate_beliefs` succeeds exactly on the maps satisfying invariants
I1, I2 and I3. -/
theorem validate_beliefs_eq_ok (b : Beliefs) :
    validate_beliefs b = .ok () ↔ ValidBeliefs b := by
  unfold validate_beliefs ValidBeliefs
  split_ifs with h1 h2 h3
  · simp [h1]
  · simp only [reduceCtorEq, false_iff, not_and]
    intro _ hpos
    rcases List.any_eq_true.mp h2 with ⟨v, hv, hvlt⟩
    exact absurd (hpos v hv) (by simpa using hvlt)
  · simp only [true_iff]
    refine ⟨h1, fun v hv => ?_, h3.1, h3.2⟩
    by_contra hneg
    exact h2 (List.any_eq_true.mpr ⟨v, hv, by simpa using lt_of_not_le hneg⟩)
  · simp only [reduceCtorEq, false_iff, not_and]
    intro _ _
    exact fun hb1 hb2 => h3 ⟨hb1, hb2⟩

theorem beliefsOf_eq_ok (s c : Beliefs) : beliefsOf s = .ok c ↔ s ≠ [] ∧ c = s := by
  unfold beliefsOf
  split_ifs with h <;> simp [h, eq_comm]

/-- C9: `_normalize_beliefs` divides every value of the input map by the sum
of all its values, except that when the sum is exactly 0 it returns the input
map unchanged; on a non-zero-sum map the output sums to 1. -/
theorem C9_normalize_spec (b : Beliefs) :
    (sumValues b = 0 → normalize_beliefs b = b) ∧
    (sumValues b ≠ 0 →
      normalize_beliefs b = b.map (fun hp => (hp.1, hp.2 / sumValues b)) ∧
      sumValues (normalize_beliefs b) = 1) := by
  constructor
  · intro h; simp [normalize_beliefs, h]
  · intro h
    refine ⟨by simp [normalize_beliefs, h], ?_⟩
    simp [normalize_beliefs, h, sumValues_map_div, div_self h]

/-- Witness for C9 at a concrete non-zero-sum map. -/
theorem C9_normalize_witness :
    sumValues [("A", (2 : ℚ))] ≠ 0 ∧ sumValues (normalize_beliefs [("A", (2 : ℚ))]) = 1 :=
  ⟨by decide, ((C9_normalize_spec [("A", (2 : ℚ))]).2 (by decide)).2⟩

/-- C2: when the marginal is exactly 0, `update_belief_with_evidence` fails
with the impossible-evidence error and the stored state is exactly what it was
before the call. -/
theorem C2_impossible_evidence_state_unchanged (s l : Beliefs) (e : String)
    (he : e ≠ "") (hs : s ≠ []) (hl : l ≠ [])
    (hcov : ∀ h ∈ keys s, h ∈ keys l)
    (hm : marginalOf s l = 0) :
    update_belief_with_evidence s e l = (.error (.impossibleEvidence e), s) := by
  have hmiss : missingOf s l = [] := by
    simp only [missingOf, List.filter_eq_nil_iff]
    intro h hh
    simpa using hcov h hh
  simp [update_belief_with_evidence, he, hl, beliefsOf, hs, hmiss, hm]

/-- Witness for C2: a state where every hypothesis assigns the evidence zero
likelihood. -/
theorem C2_impossible_evidence_witness :
    update_belief_with_evidence [("A", (1 : ℚ))] "fever" [("A", 0)] =
      (.error (.impossibleEvidence "fever"), [("A", (1 : ℚ))]) :=
  C2_impossible_evidence_state_unchanged [("A", (1 : ℚ))] [("A", 0)] "fever"
    (by decide) (by decide) (by decide) (by decide) (by decide)

/-- C4: when the likelihood map misses at least one tracked hypothesis,
`update_belief_with_evidence` fails with an error naming exactly the missing
hypotheses and the stored state is unchanged. -/
theorem C4_incomplete_likelihoods (s l : Beliefs) (e : String)
    (he : e ≠ "") (hs : s ≠ []) (hl : l ≠ [])
    (hmiss : missingOf s l ≠ []) :
    update_belief_with_evidence s e l =
      (.error (.missingLikelihoods (missingOf s l)), s) ∧
    ∀ h, h ∈ missingOf s l ↔ h ∈ keys s ∧ h ∉ keys l := by
  constructor
  · simp [update_belief_with_evidence, he, hl, beliefsOf, hs, hmiss]
  · intro h
    simp [missingOf, List.mem_filter]

/-- Witness for C4: the likelihood map covers A but misses B and C. -/
theorem C4_incomplete_likelihoods_witness :
    update_belief_with_evidence [("A", (1/2 : ℚ)), ("B", 1/4), ("C", 1/4)] "cough"
        [("A", 1)] =
      (.error (.missingLikelihoods ["B", "C"]),
        [("A", (1/2 : ℚ)), ("B", 1/4), ("C", 1/4)]) :=
  (C4_incomplete_likelihoods [("A", (1/2 : ℚ)), ("B", 1/4), ("C", 1/4)] [("A", 1)]
    "cough" (by decide) (by decide) (by decide) (by decide)).1

theorem normalize_beliefs_ne_nil (p : Beliefs) (hp : p ≠ []) :
    normalize_beliefs p ≠ [] := by
  unfold normalize_beliefs
  split
  · exact hp
  · simpa using hp

/-- C5 counterexample: a priors map whose every value is negative is accepted
by `initialize_beliefs` (normalization by the negative sum flips the signs
before the negativity check runs), so the claim that a negative prior is
always rejected is false. -/
theorem C5_counterexample_negative_priors_accepted :
    initialize_beliefs [] [("A", -1), ("B", -1)] =
      (.ok [("A", 1/2), ("B", 1/2)], [("A", 1/2), ("B", 1/2)]) := by rfl

/-- C5 amended: `initialize_beliefs` rejects empty priors before normalizing,
but checks negativity only after normalizing: for non-empty priors it fails
with the negativity error exactly when the normalized map still contains a
negative value. -/
theorem C5_initialize_checks_after_normalization (s p : Beliefs) :
    (p = [] → initialize_beliefs s p = (.error .emptyPriors, s)) ∧
    (p ≠ [] →
      ((initialize_beliefs s p).1 = .error .negativeProb ↔
        ∃ v ∈ values (normalize_beliefs p), v < 0)) := by
  constructor
  · intro h; simp [initialize_beliefs, h]
  · intro hp
    have hnp : normalize_beliefs p ≠ [] := normalize_beliefs_ne_nil p hp
    unfold initialize_beliefs update_beliefs validate_beliefs
    rw [if_neg hp, if_neg hnp]
    by_cases hneg : (values (normalize_beliefs p)).any (fun v => decide (v < 0)) = true
    · rw [if_pos hneg]
      simp only [true_iff]
      rcases List.any_eq_true.mp hneg with ⟨v, hv, hvlt⟩
      exact ⟨v, hv, by simpa using hvlt⟩
    · rw [if_neg hneg]
      have hnoneg : ¬∃ v ∈ values (normalize_beliefs p), v < 0 := by
        rintro ⟨v, hv, hvlt⟩
        exact hneg (List.any_eq_true.mpr ⟨v, hv, by simpa using hvlt⟩)
      split_ifs with hrange
      · simp [beliefsOf, hnp, hnoneg]
      · simp [hnoneg]

/-- Witness for C5 amended: mixed-sign priors with positive sum keep their
negative entry through normalization and are rejected. -/
theorem C5_initialize_witness :
    (initialize_beliefs [] [("A", -1), ("B", 2)]).1 = .error .negativeProb :=
  ((C5_initialize_checks_after_normalization [] [("A", -1), ("B", 2)]).2
    (by decide)).mpr (by decide)

theorem values_unnormalizedOf_nonneg (s l : Beliefs)
    (hsv : ∀ v ∈ values s, 0 ≤ v) (hlv : ∀ v ∈ values l, 0 ≤ v) :
    ∀ v ∈ values (unnormalizedOf s l), 0 ≤ v := by
  intro v hv
  simp only [unnormalizedOf, values, List.map_map, List.mem_map,
    Function.comp] at hv
  rcases hv with ⟨hp, hmem, hval⟩
  rw [← hval]
  exact mul_nonneg (getD_nonneg l hp.1 hlv)
    (hsv hp.2 (by simp only [values, List.mem_map]; exact ⟨hp, hmem, rfl⟩))

theorem marginalOf_pos (s l : Beliefs) (hsv : ∀ v ∈ values s, 0 ≤ v)
    (hlv : ∀ v ∈ values l, 0 ≤ v) (hm : marginalOf s l ≠ 0) :
    0 < marginalOf s l := by
  refine lt_of_le_of_ne ?_ (Ne.symm hm)
  exact sumValues_nonneg _ (values_unnormalizedOf_nonneg s l hsv hlv)

theorem keys_posteriorOf (s l : Beliefs) : keys (posteriorOf s l) = keys s := by
  simp [posteriorOf, unnormalizedOf, keys, List.map_map]

theorem alookup_posteriorOf (s l : Beliefs) (h : String) (p : ℚ)
    (hp : alookup s h = some p) :
    alookup (posteriorOf s l) h = some (getD l h * p / marginalOf s l) := by
  unfold posteriorOf unnormalizedOf
  generalize marginalOf s l = m
  induction s with
  | nil => exact Option.noConfusion hp
  | cons q rest ih =>
    by_cases hq : q.1 = h
    · subst hq
      have hp2 : q.2 = p := by simpa [alookup] using hp
      simp [alookup, hp2]
    · simp only [alookup, if_neg hq] at hp
      simpa [alookup, hq] using ih hp

/-- C1: on an initialized non-negative state, with a non-empty likelihood map
covering every tracked hypothesis and a non-zero marginal, the update stores
and returns the posterior `likelihoods[h] * prior[h] / marginal`, keyed
exactly by the hypotheses of the prior. -/
theorem C1_bayes_update_stores_posterior (s l : Beliefs) (e : String)
    (he : e ≠ "") (hs : s ≠ []) (hl : l ≠ [])
    (hsv : ∀ v ∈ values s, 0 ≤ v) (hlv : ∀ v ∈ values l, 0 ≤ v)
    (hcov : ∀ h ∈ keys s, h ∈ keys l)
    (hm : marginalOf s l ≠ 0) :
    update_belief_with_evidence s e l =
      (.ok (posteriorOf s l), posteriorOf s l) ∧
    keys (posteriorOf s l) = keys s ∧
    (∀ h p, alookup s h = some p →
      alookup (posteriorOf s l) h = some (getD l h * p / marginalOf s l)) ∧
    (update_belief_with_evidence [("A", 3/5), ("B", 3/10), ("C", 1/10)] "fever"
        [("A", 7/10), ("B", 17/20), ("C", 1/20)]).2 =
      [("A", 21/34), ("B", 3/8), ("C", 1/136)] ∧
    |(21/34 : ℚ) - 6176/10000| < 5/10000 ∧ |(3/8 : ℚ) - 3750/10000| < 5/10000 ∧
    |(1/136 : ℚ) - 735/100000| < 5/10000 := by
  have hpos : 0 < marginalOf s l := marginalOf_pos s l hsv hlv hm
  have hmiss : missingOf s l = [] := by
    simp only [missingOf, List.filter_eq_nil_iff]
    intro h hh
    simpa using hcov h hh
  have hsum : sumValues (posteriorOf s l) = 1 := by
    unfold posteriorOf
    rw [sumValues_map_div]
    exact div_self hm
  have hvalid : validate_beliefs (posteriorOf s l) = .ok () := by
    rw [validate_beliefs_eq_ok]
    refine ⟨?_, ?_, ?_, ?_⟩
    · simp [posteriorOf, unnormalizedOf, hs]
    · intro v hv
      simp only [posteriorOf, values, List.map_map, List.mem_map,
        Function.comp] at hv
      rcases hv with ⟨hp, hmem, hval⟩
      rw [← hval]
      refine div_nonneg ?_ (le_of_lt hpos)
      exact values_unnormalizedOf_nonneg s l hsv hlv hp.2
        (by simp only [values, List.mem_map]; exact ⟨hp, hmem, rfl⟩)
    · rw [hsum]; norm_num
    · rw [hsum]; norm_num
  have hpne : posteriorOf s l ≠ [] := by
    simp [posteriorOf, unnormalizedOf, hs]
  refine ⟨?_, keys_posteriorOf s l, alookup_posteriorOf s l, by rfl,
    by decide, by decide, by decide⟩
  simp [update_belief_with_evidence, he, hl, beliefsOf, hs, hmiss, hm,
    update_beliefs, hvalid, hpne]

/-- Witness for C1: the spec's worked example; priors 0.6, 0.3, 0.1 and
likelihoods 0.7, 0.85, 0.05 give the posterior 21/34, 3/8, 1/136. -/
theorem C1_bayes_update_witness :
    update_belief_with_evidence [("A", 3/5), ("B", 3/10), ("C", 1/10)] "fever"
        [("A", 7/10), ("B", 17/20), ("C", 1/20)] =
      (.ok [("A", 21/34), ("B", 3/8), ("C", 1/136)],
        [("A", 21/34), ("B", 3/8), ("C", 1/136)]) :=
  (C1_bayes_update_stores_posterior [("A", 3/5), ("B", 3/10), ("C", 1/10)]
    [("A", 7/10), ("B", 17/20), ("C", 1/20)] "fever" (by decide) (by decide)
    (by decide) (by decide) (by decide) (by decide) (by decide)).1

theorem update_beliefs_inv (s nb : Beliefs) (h : BeliefInv s) :
    BeliefInv (update_beliefs s nb).2 := by
  rcases hv : validate_beliefs nb with e | u
  · simpa [update_beliefs, hv] using h
  · cases u
    right
    simp only [update_beliefs, hv]
    exact (validate_beliefs_eq_ok nb).mp hv

theorem initialize_beliefs_snd (s p : Beliefs) :
    (initialize_beliefs s p).2 = s ∨
    (initialize_beliefs s p).2 = (update_beliefs s (normalize_beliefs p)).2 := by
  unfold initialize_beliefs
  split_ifs with hp
  · left; rfl
  · right
    rcases h : update_beliefs s (normalize_beliefs p) with ⟨r, s1⟩
    rcases r with e | u
    · simp [h]
    · rcases hb : beliefsOf s1 with e1 | c <;> simp [h, hb]

theorem update_bwe_snd (s l : Beliefs) (e : String) :
    (update_belief_with_evidence s e l).2 = s ∨
    (update_belief_with_evidence s e l).2 =
      (update_beliefs s (posteriorOf s l)).2 := by
  unfold update_belief_with_evidence
  split_ifs with h1 h2
  · left; rfl
  · left; rfl
  · rcases hb : beliefsOf s with e1 | c
    · simp [hb]
    · obtain ⟨hs, rfl⟩ := (beliefsOf_eq_ok s c).mp hb
      simp only [hb]
      split_ifs with h3 h4
      · left; rfl
      · left; rfl
      · rcases h : update_beliefs c (posteriorOf c l) with ⟨r, s1⟩
        rcases r with e2 | u
        · simp [h]
        · rcases hb1 : beliefsOf s1 with e3 | c1 <;> simp [h, hb1]

/-- C3: every lifecycle operation, on any inputs (including ill-formed
likelihood maps), preserves the invariant that the stored belief map is
either empty or a valid distribution (non-empty, non-negative, summing to
within ±0.01 of 1): each candidate state is validated before being stored
and failed operations leave the stored state unchanged. -/
theorem C3_invariant_preservation (op : Op) (s : Beliefs) (h : BeliefInv s) :
    BeliefInv (stepState op s) := by
  cases op with
  | init p =>
    show BeliefInv (initialize_beliefs s p).2
    rcases initialize_beliefs_snd s p with h1 | h1 <;> rw [h1]
    · exact h
    · exact update_beliefs_inv s _ h
  | update e l =>
    show BeliefInv (update_belief_with_evidence s e l).2
    rcases update_bwe_snd s l e with h1 | h1 <;> rw [h1]
    · exact h
    · exact update_beliefs_inv s _ h
  | query => exact h
  | clear => left; rfl

/-- Witness for C3: a valid one-hypothesis state stays valid across an
update call whose likelihood map is ill-formed (a negative likelihood). -/
theorem C3_invariant_witness :
    BeliefInv [("A", (1 : ℚ))] ∧
    BeliefInv (stepState (Op.update "fever" [("A", -1)]) [("A", (1 : ℚ))]) :=
  ⟨by decide,
    C3_invariant_preservation (Op.update "fever" [("A", -1)]) [("A", (1 : ℚ))]
      (by decide)⟩

/-! ### The likelihood-derivation / decision-weighting step
(`medical_knowledge.py` and `DecisionLayer.make_decision` in `decision.py`).
Python sets of symptom tags are embedded as duplicate-free lists. -/

/-- One entry of `DISEASE_CATEGORIES`: the category name, its conditions (in
dict insertion order) and its symptom set. -/
structure Category where
  name : String
  conditions : List String
  symptoms : List String

/-- `DISEASE_CATEGORIES`, transcribed from `medical_knowledge.py`. -/
def DISEASE_CATEGORIES : List Category :=
  [⟨"Infectious",
    ["Common Cold", "Flu", "Viral Infection", "Bacterial Infection", "COVID-19"],
    ["fever", "high temperature", "cough", "sore throat",
     "runny nose", "congestion", "body aches", "fatigue",
     "nausea", "vomiting", "headache", "chills"]⟩,
   ⟨"Cardiovascular",
    ["Hypertension", "Coronary Artery Disease", "Heart Failure", "Arrhythmia",
     "Deep Vein Thrombosis"],
    ["chest pain", "shortness of breath", "irregular heartbeat",
     "swelling in legs", "fatigue", "dizziness", "high blood pressure",
     "rapid heartbeat", "leg pain", "leg swelling"]⟩,
   ⟨"Diabetes",
    ["Type 1 Diabetes", "Type 2 Diabetes", "Diabetic Neuropathy",
     "Diabetic Retinopathy", "Hypoglycemia", "Hyperglycemia"],
    ["excessive thirst", "frequent urination", "unexplained weight loss",
     "blurred vision", "slow healing", "numbness in hands/feet",
     "increased hunger", "fatigue", "dry skin", "high blood sugar",
     "sudden weight loss", "mood changes", "bedwetting in children",
     "rapid breathing", "fruity breath odor"]⟩,
   ⟨"Respiratory",
    ["Asthma", "COPD", "Bronchitis", "Pneumonia", "Pulmonary Embolism"],
    ["shortness of breath", "wheezing", "chronic cough",
     "chest tightness", "difficulty breathing", "coughing up mucus",
     "rapid breathing", "chest pain", "blue lips or fingers"]⟩,
   ⟨"Digestive",
    ["GERD", "Gastritis", "Peptic Ulcer", "IBS", "Gallstones"],
    ["abdominal pain", "heartburn", "nausea", "vomiting",
     "bloating", "changes in bowel movements", "stomach pain",
     "acid reflux", "loss of appetite", "indigestion",
     "difficulty swallowing", "difficulty eating", "chest pain",
     "burning sensation", "regurgitation", "acidity"]⟩,
   ⟨"Musculoskeletal",
    ["Osteoarthritis", "Rheumatoid Arthritis", "Fibromyalgia", "Osteoporosis",
     "Lower Back Pain"],
    ["joint pain", "muscle pain", "stiffness", "swelling in joints",
     "reduced mobility", "back pain", "neck pain", "weakness",
     "limited range of motion", "muscle weakness"]⟩]

/-- The parts of a `CONDITION_DETAILS` entry the decision weighting reads:
the `symptom_weights` table and the `age_risk` lambda.  Every entry of the
source table carries a `symptom_weights` key, so the
`"symptom_weights" in condition_info` guard of `make_decision` is always
true for conditions present in the table. -/
structure ConditionDetail where
  symptom_weights : List (String × ℚ)
  age_risk : ℤ → ℚ

/-- `CONDITION_DETAILS`, transcribed from `medical_knowledge.py` (decimal
float literals written as the rationals they denote).  Note: "Common Cold"
and "Bacterial Infection" have no entry. -/
def CONDITION_DETAILS : List (String × ConditionDetail) :=
  [("Type 1 Diabetes",
    ⟨[("excessive thirst", 2), ("frequent urination", 2),
      ("sudden weight loss", 9/5), ("increased hunger", 3/2),
      ("fatigue", 6/5), ("blurred vision", 6/5), ("mood changes", 11/10),
      ("bedwetting in children", 7/5), ("fruity breath odor", 9/5),
      ("rapid breathing", 3/2)],
     fun age => if age < 30 then 13/10 else 1⟩),
   ("GERD",
    ⟨[("heartburn", 2), ("acid reflux", 2), ("chest pain", 3/2),
      ("difficulty eating", 13/10), ("burning sensation", 3/2),
      ("regurgitation", 7/5), ("acidity", 3/2)],
     fun age => if 40 < age then 6/5 else 1⟩),
   ("Gastritis",
    ⟨[("stomach pain", 9/5), ("nausea", 7/5), ("indigestion", 13/10),
      ("loss of appetite", 6/5), ("heartburn", 1), ("acid reflux", 4/5)],
     fun _ => 1⟩),
   ("Flu",
    ⟨[("fever", 3/2), ("cough", 6/5), ("headache", 13/10), ("nausea", 1)],
     fun age => if 65 < age ∨ age < 5 then 6/5 else 1⟩),
   ("Viral Infection",
    ⟨[("fever", 13/10), ("cough", 4/5), ("headache", 6/5), ("nausea", 11/10)],
     fun age => if 60 < age ∨ age < 10 then 11/10 else 1⟩),
   ("COVID-19",
    ⟨[("fever", 7/5), ("cough", 3/2), ("headache", 11/10), ("nausea", 4/5)],
     fun age => if 60 < age ∨ age < 12 then 13/10 else 1⟩)]

/-- `get_related_conditions`: for each category whose symptom set overlaps
the observed symptoms, every condition of the category receives the base
probability overlap / category-size. -/
def get_related_conditions (symptoms : List String) : Beliefs :=
  DISEASE_CATEGORIES.foldl
    (fun acc cat =>
      if 0 < (cat.symptoms.filter (fun sym => decide (sym ∈ symptoms))).length then
        acc ++ cat.conditions.map
          (fun c =>
            (c, ((cat.symptoms.filter (fun sym => decide (sym ∈ symptoms))).length : ℚ) /
              (cat.symptoms.length : ℚ)))
      else acc)
    []

/-- Lines 68-81 of `decision.py`: the running weight multiplier for one
condition found in `CONDITION_DETAILS` — start at 1.0, multiply the table
weight of every observed symptom, then the severity adjustment: if
severity ≥ 7, ×1.5 for Flu / Viral Infection / COVID-19 when "fever" is
observed, else ×0.5 for Common Cold. -/
def weight_multiplier (info : ConditionDetail) (condition : String)
    (symptoms : List String) (severity : ℤ) : ℚ :=
  let base := symptoms.foldl
    (fun m sym =>
      match alookup info.symptom_weights sym with
      | some w => m * w
      | none => m) 1
  if 7 ≤ severity then
    if "fever" ∈ symptoms ∧
        (condition = "Flu" ∨ condition = "Viral Infection" ∨ condition = "COVID-19") then
      base * (3/2)
    else if condition = "Common Cold" then base * (1/2)
    else base
  else base

/-- The weighting loop of `make_decision`: each related condition that has a
`CONDITION_DETAILS` entry is multiplied by its weight multiplier; conditions
without an entry are left untouched. -/
def apply_symptom_weights (related : Beliefs) (symptoms : List String)
    (severity : ℤ) : Beliefs :=
  related.map (fun cp =>
    match alookup CONDITION_DETAILS cp.1 with
    | some info => (cp.1, cp.2 * weight_multiplier info cp.1 symptoms severity)
    | none => cp)

/-- Lines 84-88 of `decision.py`: divide by the total when it is positive. -/
def normalize_related (related : Beliefs) : Beliefs :=
  if 0 < sumValues related then
    related.map (fun cp => (cp.1, cp.2 / sumValues related))
  else related

/-- `adjust_probabilities_for_age`: multiply by the age-risk factor of each
condition known to `CONDITION_DETAILS`, then normalize if the total is
positive. -/
def adjust_probabilities_for_age (conditions : Beliefs) (age : ℤ) : Beliefs :=
  normalize_related (conditions.map (fun cp =>
    match alookup CONDITION_DETAILS cp.1 with
    | some info => (cp.1, cp.2 * info.age_risk age)
    | none => cp))

/-- Dict assignment `b[k] = v` for a key already present. -/
def setValue (b : Beliefs) (k : String) (v : ℚ) : Beliefs :=
  b.map (fun hp => if hp.1 = k then (k, v) else hp)

/-- One iteration of the merge loop (lines 94-98 of `decision.py`):
an already-tracked condition gets `max(prob, active[condition])`, a new
condition is appended with its derived probability. -/
def mergeStep (acc : Beliefs) (cp : String × ℚ) : Beliefs :=
  if cp.1 ∈ keys acc then setValue acc cp.1 (max cp.2 (getD acc cp.1))
  else acc ++ [cp]

/-- The merge of the age-adjusted relevance vector into
`current_state.active_hypotheses`. -/
def mergeHypotheses (active adjusted : Beliefs) : Beliefs :=
  adjusted.foldl mergeStep active

/-- The effect of one `make_decision` call on `active_hypotheses`: derive
related conditions, weight them, normalize, age-adjust, then merge by
maximum into the active map. -/
def make_decision_hypotheses (active : Beliefs) (symptoms : List String)
    (severity age : ℤ) : Beliefs :=
  mergeHypotheses active
    (adjust_probabilities_for_age
      (normalize_related
        (apply_symptom_weights (get_related_conditions symptoms) symptoms severity))
      age)

/-- `main.get_initial_hypotheses` evaluated with no health concerns and no
medical history: the four base conditions at 0.1, divided by their total. -/
def get_initial_hypotheses : Beliefs :=
  [("Common Cold", (1/10 : ℚ)), ("Flu", 1/10), ("Viral Infection", 1/10),
    ("Fatigue", 1/10)].map
    (fun hp => (hp.1, hp.2 /
      sumValues [("Common Cold", (1/10 : ℚ)), ("Flu", 1/10),
        ("Viral Infection", 1/10), ("Fatigue", 1/10)]))

set_option maxRecDepth 10000

/-- Lookup combination realised by the merge: a hypothesis present on both
sides gets the maximum of new and old, one present on a single side keeps
that side's value. -/
def mergeLU : Option ℚ → Option ℚ → Option ℚ
  | some a, some b => some (max b a)
  | some a, none => some a
  | none, ob => ob

theorem alookup_append_left {α : Type} (b c : List (String × α)) (h : String)
    (v : α) (hv : alookup b h = some v) : alookup (b ++ c) h = some v := by
  induction b with
  | nil => exact Option.noConfusion hv
  | cons p rest ih =>
    by_cases hp : p.1 = h
    · simpa [alookup, hp] using hv
    · rw [List.cons_append]
      simp only [alookup, if_neg hp] at hv ⊢
      exact ih hv

theorem alookup_append_right {α : Type} (b c : List (String × α)) (h : String)
    (hv : alookup b h = none) : alookup (b ++ c) h = alookup c h := by
  induction b with
  | nil => rfl
  | cons p rest ih =>
    by_cases hp : p.1 = h
    · simp [alookup, hp] at hv
    · rw [List.cons_append]
      simp only [alookup, if_neg hp] at hv ⊢
      exact ih hv

theorem alookup_setValue_self (b : Beliefs) (k : String) (v a : ℚ)
    (ha : alookup b k = some a) : alookup (setValue b k v) k = some v := by
  induction b with
  | nil => exact Option.noConfusion ha
  | cons p rest ih =>
    by_cases hp : p.1 = k
    · simp [setValue, alookup, hp]
    · simp only [alookup, if_neg hp] at ha
      simp only [setValue, List.map_cons, alookup, if_neg hp]
      exact ih ha

theorem alookup_setValue_ne (b : Beliefs) (k h : String) (v : ℚ)
    (hne : h ≠ k) : alookup (setValue b k v) h = alookup b h := by
  induction b with
  | nil => rfl
  | cons p rest ih =>
    by_cases hp : p.1 = k
    · have hk : ¬(k = h) := fun hh => hne hh.symm
      simp only [setValue, List.map_cons, if_pos hp, alookup, if_neg hk]
      rw [if_neg (hp ▸ hk)]
      exact ih
    · simp only [setValue, List.map_cons, if_neg hp, alookup]
      by_cases hph : p.1 = h
      · simp [hph]
      · rw [if_neg hph, if_neg hph]
        exact ih

theorem keys_setValue (b : Beliefs) (k : String) (v : ℚ) :
    keys (setValue b k v) = keys b := by
  induction b with
  | nil => rfl
  | cons p rest ih =>
    by_cases hp : p.1 = k
    · simp only [setValue, List.map_cons, if_pos hp, keys] at ih ⊢
      rw [← hp] at ih ⊢
      simp [ih]
    · simp only [setValue, List.map_cons, if_neg hp, keys] at ih ⊢
      simp [ih]

theorem keys_mergeStep_nodup (acc : Beliefs) (cp : String × ℚ)
    (h : (keys acc).Nodup) : (keys (mergeStep acc cp)).Nodup := by
  unfold mergeStep
  split_ifs with hmem
  · rw [keys_setValue]; exact h
  · have : keys (acc ++ [cp]) = keys acc ++ [cp.1] := by simp [keys]
    rw [this]
    simp [List.nodup_append, h, hmem]

theorem alookup_mergeHypotheses (adjusted : Beliefs) :
    ∀ active : Beliefs, (keys active).Nodup → (keys adjusted).Nodup →
    ∀ h, alookup (mergeHypotheses active adjusted) h =
      mergeLU (alookup active h) (alookup adjusted h) := by
  induction adjusted with
  | nil =>
    intro active _ _ h
    rcases hv : alookup active h with _ | v <;>
      simp [mergeHypotheses, mergeLU, alookup, hv]
  | cons cp rest ih =>
    intro active ha hadj h
    have hkeys : keys (cp :: rest) = cp.1 :: keys rest := rfl
    rw [hkeys, List.nodup_cons] at hadj
    have hcpr : cp.1 ∉ keys rest := hadj.1
    have hrest : (keys rest).Nodup := hadj.2
    rw [show mergeHypotheses active (cp :: rest) =
      mergeHypotheses (mergeStep active cp) rest from rfl]
    rw [ih (mergeStep active cp) (keys_mergeStep_nodup active cp ha) hrest h]
    by_cases hk : cp.1 = h
    · subst hk
      have hrnone : alookup rest cp.1 = none :=
        (alookup_eq_none_iff rest cp.1).mpr hcpr
      rw [show alookup (cp :: rest) cp.1 = some cp.2 from by simp [alookup]]
      rw [hrnone]
      unfold mergeStep
      split_ifs with hmem
      · obtain ⟨a, ha2⟩ := (alookup_mem_keys active cp.1).mp hmem
        rw [alookup_setValue_self active cp.1 _ a ha2, ha2]
        have hgd : getD active cp.1 = a := by simp [getD, ha2]
        rw [hgd]
        rfl
      · have hanone : alookup active cp.1 = none :=
          (alookup_eq_none_iff active cp.1).mpr hmem
        rw [alookup_append_right active [cp] cp.1 hanone, hanone]
        simp [alookup, mergeLU]
    · have hstep : alookup (mergeStep active cp) h = alookup active h := by
        unfold mergeStep
        split_ifs with hmem
        · exact alookup_setValue_ne active cp.1 h _ (fun hh => hk hh.symm)
        · rcases hv : alookup active h with _ | v
          · rw [alookup_append_right active [cp] h hv]
            simp [alookup, hk]
          · exact alookup_append_left active [cp] h v hv
      rw [hstep]
      rw [show alookup (cp :: rest) h = alookup rest h from by simp [alookup, hk]]

/-- C7: merging the derived relevance vector into the active hypotheses takes
the per-hypothesis maximum for hypotheses on both sides (so tracked values
never decrease), keeps tracked hypotheses absent from the vector, and adds
hypotheses that are new with their derived weight. -/
theorem C7_merge_by_maximum (active adjusted : Beliefs)
    (ha : (keys active).Nodup) (hadj : (keys adjusted).Nodup) :
    (∀ h a b, alookup active h = some a → alookup adjusted h = some b →
      alookup (mergeHypotheses active adjusted) h = some (max b a)) ∧
    (∀ h a, alookup active h = some a → alookup adjusted h = none →
      alookup (mergeHypotheses active adjusted) h = some a) ∧
    (∀ h b, alookup active h = none → alookup adjusted h = some b →
      alookup (mergeHypotheses active adjusted) h = some b) ∧
    (∀ h ∈ keys active,
      getD active h ≤ getD (mergeHypotheses active adjusted) h) := by
  refine ⟨?_, ?_, ?_, ?_⟩
  · intro h a b h1 h2
    rw [alookup_mergeHypotheses adjusted active ha hadj h, h1, h2]; rfl
  · intro h a h1 h2
    rw [alookup_mergeHypotheses adjusted active ha hadj h, h1, h2]; rfl
  · intro h b h1 h2
    rw [alookup_mergeHypotheses adjusted active ha hadj h, h1, h2]; rfl
  · intro h hmem
    obtain ⟨a, ha2⟩ := (alookup_mem_keys active h).mp hmem
    unfold getD
    rw [alookup_mergeHypotheses adjusted active ha hadj h, ha2]
    rcases hv : alookup adjusted h with _ | b
    · simp [mergeLU]
    · simp only [mergeLU, Option.getD_some]
      exact le_max_right b a

/-- Witness for C7: B (on both sides) gets the maximum, C (new) is added. -/
theorem C7_merge_witness :
    alookup (mergeHypotheses [("A", (1/2 : ℚ)), ("B", 1/2)]
        [("B", 3/4), ("C", 1/4)]) "B" = some (max (3/4) (1/2)) ∧
    alookup (mergeHypotheses [("A", (1/2 : ℚ)), ("B", 1/2)]
        [("B", 3/4), ("C", 1/4)]) "C" = some (1/4) :=
  ⟨(C7_merge_by_maximum [("A", (1/2 : ℚ)), ("B", 1/2)] [("B", 3/4), ("C", 1/4)]
      (by decide) (by decide)).1 "B" (1/2) (3/4) (by decide) (by decide),
   (C7_merge_by_maximum [("A", (1/2 : ℚ)), ("B", 1/2)] [("B", 3/4), ("C", 1/4)]
      (by decide) (by decide)).2.2.1 "C" (1/4) (by decide) (by decide)⟩

/-- C6 evaluated at the failing input (symptoms {fever}, severity 8): the
fever-pattern ×1.5 boost does reach Flu (together with its fever symptom
weight 1.5, giving 1/12 · 9/4), but Common Cold keeps its base 1/12 instead
of being halved, because "Common Cold" has no CONDITION_DETAILS entry and
the whole weighting block — including the ×0.5 dampening branch written for
it — is skipped for conditions absent from that table. -/
theorem C6_common_cold_dampening_unreachable :
    alookup (get_related_conditions ["fever"]) "Common Cold" = some (1/12) ∧
    alookup (apply_symptom_weights (get_related_conditions ["fever"]) ["fever"] 8)
      "Common Cold" = some (1/12) ∧
    alookup (apply_symptom_weights (get_related_conditions ["fever"]) ["fever"] 8)
      "Common Cold" ≠ some (1/12 * (1/2)) ∧
    alookup (apply_symptom_weights (get_related_conditions ["fever"]) ["fever"] 8)
      "Flu" = some (1/12 * (3/2 * (3/2))) ∧
    (alookup CONDITION_DETAILS "Common Cold").isNone = true := by decide

/-- C10: the merged `active_hypotheses` map is not renormalized; after two
`make_decision` calls with different symptom sets (fever, then chest pain;
severity 5, age 30, starting from the initial hypotheses of a session with
no stated health concerns) the stored values sum to 74/31 ≈ 2.39 > 1.01,
violating the belief-state sum-to-one invariant. -/
theorem C10_merged_hypotheses_sum_exceeds_tolerance :
    101/100 <
      sumValues (make_decision_hypotheses
        (make_decision_hypotheses get_initial_hypotheses ["fever"] 5 30)
        ["chest pain"] 5 30) := by decide

/-! ### Validation over extended (IEEE-style) values
`validate_beliefs` is re-modelled with the non-finite floats NaN and
±infinity and with non-numeric values, to settle how each check of the
source treats them: `isinstance(p, (int, float))` is true for NaN and the
infinities, `p < 0` is false for NaN and +inf and true for -inf, and a sum
containing NaN or +inf falls outside the `0.99 <= total <= 1.01` window. -/

/-- A dict value as the validator sees it: a finite float (embedded as a
rational), a non-finite float, or a non-numeric value (e.g. a string). -/
inductive PyVal
  | num (q : ℚ)
  | nan
  | inf
  | ninf
  | nonNum
  deriving Repr, DecidableEq

abbrev PyBeliefs := List (String × PyVal)

/-- `isinstance(p, (int, float))`: true for every float, NaN and the
infinities included. -/
def pyIsNum : PyVal → Bool
  | .nonNum => false
  | _ => true

/-- The Python comparison `p < 0`: false for NaN and +infinity, true for
-infinity.  (Non-numeric values never reach this comparison — the numeric
check precedes it — and are mapped to false.) -/
def pyNegative : PyVal → Bool
  | .num q => decide (q < 0)
  | .ninf => true
  | _ => false

/-- IEEE float addition as Python `sum` performs it.  Non-numeric operands
never reach the sum (the numeric check precedes it); they are mapped to
`nan`. -/
def pyAdd : PyVal → PyVal → PyVal
  | .num a, .num b => .num (a + b)
  | .num _, .inf => .inf
  | .inf, .num _ => .inf
  | .inf, .inf => .inf
  | .num _, .ninf => .ninf
  | .ninf, .num _ => .ninf
  | .ninf, .ninf => .ninf
  | _, _ => .nan

/-- `sum(beliefs.values())`, folding from 0 as Python does. -/
def pySum (l : List PyVal) : PyVal := l.foldl pyAdd (.num 0)

/-- The Python comparison `a <= b` on floats: false whenever NaN is
involved. -/
def pyLe : PyVal → PyVal → Bool
  | .num a, .num b => decide (a ≤ b)
  | .num _, .inf => true
  | .inf, .inf => true
  | .ninf, .num _ => true
  | .ninf, .inf => true
  | .ninf, .ninf => true
  | _, _ => false

/-- The ValidationError taxonomy of the spec; the two source messages
"must be numeric" and "must be non-negative" both map to
`nonNumericOrNegative`. -/
inductive ValidationError
  | emptyDistribution
  | nonNumericOrNegative
  | doesNotSumToOne
  deriving Repr, DecidableEq

/-- `StateManager.validate_beliefs` over extended values, with the check
order of the source: emptiness, the numeric check, the negativity check,
then the sum-tolerance window. -/
def validateF (beliefs : PyBeliefs) : Except ValidationError Unit :=
  if beliefs = [] then .error .emptyDistribution
  else if ¬ (values beliefs).all pyIsNum then .error .nonNumericOrNegative
  else if (values beliefs).any pyNegative then .error .nonNumericOrNegative
  else if pyLe (.num (99/100)) (pySum (values beliefs)) ∧
      pyLe (pySum (values beliefs)) (.num (101/100)) then .ok ()
  else .error .doesNotSumToOne

/-- The rational carried by a finite value (0 otherwise). -/
def toRat : PyVal → ℚ
  | .num q => q
  | _ => 0

/-- The sum of a map whose values are all finite. -/
def finSum (b : PyBeliefs) : ℚ := ((values b).map toRat).sum

theorem mem_values_iff {α : Type} (b : List (String × α)) (v : α) :
    v ∈ values b ↔ ∃ hp ∈ b, hp.2 = v := by
  simp [values, List.mem_map]

theorem foldl_pyAdd_num (l : List PyVal) (hl : ∀ v ∈ l, ∃ q, v = PyVal.num q) :
    ∀ a : ℚ, l.foldl pyAdd (.num a) = .num (a + (l.map toRat).sum) := by
  induction l with
  | nil => intro a; simp
  | cons v rest ih =>
    intro a
    obtain ⟨q, rfl⟩ := hl v (List.mem_cons_self _ _)
    rw [List.foldl_cons]
    have hrest := ih (fun w hw => hl w (List.mem_cons_of_mem _ hw)) (a + q)
    show List.foldl pyAdd (PyVal.num (a + q)) rest = _
    rw [hrest]
    simp [toRat, add_assoc]

theorem foldl_pyAdd_nan (l : List PyVal) : ∀ acc, PyVal.nan ∈ l ∨ acc = .nan →
    l.foldl pyAdd acc = .nan := by
  induction l with
  | nil =>
    rintro acc (h | rfl)
    · cases h
    · rfl
  | cons v rest ih =>
    rintro acc hin
    rw [List.foldl_cons]
    apply ih
    rcases hin with hin | rfl
    · rcases List.mem_cons.mp hin with rfl | hin2
      · right; cases acc <;> rfl
      · left; exact hin2
    · right; cases v <;> rfl

theorem foldl_pyAdd_inf (l : List PyVal)
    (hl : ∀ v ∈ l, (∃ q, v = PyVal.num q) ∨ v = PyVal.inf) :
    ∀ acc, ((∃ q, acc = PyVal.num q) ∨ acc = PyVal.inf) →
      (PyVal.inf ∈ l ∨ acc = PyVal.inf) → l.foldl pyAdd acc = .inf := by
  induction l with
  | nil =>
    rintro acc _ (h | rfl)
    · cases h
    · rfl
  | cons v rest ih =>
    intro acc hacc hin
    rw [List.foldl_cons]
    have hv := hl v (List.mem_cons_self _ _)
    have hacc2 : (∃ q, pyAdd acc v = PyVal.num q) ∨ pyAdd acc v = PyVal.inf := by
      rcases hacc with ⟨a, rfl⟩ | rfl <;> rcases hv with ⟨q, rfl⟩ | rfl
      · exact Or.inl ⟨a + q, rfl⟩
      · exact Or.inr rfl
      · exact Or.inr rfl
      · exact Or.inr rfl
    apply ih (fun w hw => hl w (List.mem_cons_of_mem _ hw)) _ hacc2
    rcases hin with hin | rfl
    · rcases List.mem_cons.mp hin with rfl | hin2
      · right
        rcases hacc with ⟨a, rfl⟩ | rfl <;> rfl
      · left; exact hin2
    · right
      rcases hv with ⟨q, rfl⟩ | rfl <;> rfl

/-- C8 counterexample: a NaN value (and likewise +infinity) passes both the
numeric check and the negativity check and makes the sum fall outside the
tolerance window, so validation fails with the sum error and not, as the
claim states, with the non-numeric-or-negative error. -/
theorem C8_counterexample_nan_not_nonnumeric :
    validateF [("A", .nan)] = .error .doesNotSumToOne ∧
    validateF [("A", .inf)] = .error .doesNotSumToOne ∧
    validateF [("A", .nan)] ≠ .error .nonNumericOrNegative := by decide

/-- C8 amended: validation fails with EmptyDistribution on the empty map,
with NonNumericOrNegative when a value is non-numeric or when a value is
negative (-infinity counts as negative); a NaN or +infinity value, however,
passes the numeric and negativity checks and yields DoesNotSumToOne; on
all-finite, non-negative maps validation succeeds exactly when the sum lies
within [0.99, 1.01] and otherwise fails with DoesNotSumToOne. -/
theorem C8_validate_classification (b : PyBeliefs) :
    (b = [] → validateF b = .error .emptyDistribution) ∧
    (b ≠ [] → (∃ hp ∈ b, pyIsNum hp.2 = false) →
      validateF b = .error .nonNumericOrNegative) ∧
    (b ≠ [] → (∀ hp ∈ b, pyIsNum hp.2 = true) →
      (∃ hp ∈ b, pyNegative hp.2 = true) →
      validateF b = .error .nonNumericOrNegative) ∧
    (b ≠ [] → (∀ hp ∈ b, pyIsNum hp.2 = true) →
      (∀ hp ∈ b, pyNegative hp.2 = false) →
      (PyVal.nan ∈ values b ∨ PyVal.inf ∈ values b) →
      validateF b = .error .doesNotSumToOne) ∧
    (b ≠ [] → (∀ hp ∈ b, ∃ q, hp.2 = PyVal.num q) →
      (∀ hp ∈ b, pyNegative hp.2 = false) →
      (validateF b = .ok () ↔ 99/100 ≤ finSum b ∧ finSum b ≤ 101/100) ∧
      (validateF b = .error .doesNotSumToOne ↔
        ¬(99/100 ≤ finSum b ∧ finSum b ≤ 101/100))) := by
  refine ⟨?_, ?_, ?_, ?_, ?_⟩
  · intro h; simp [validateF, h]
  · rintro hb ⟨hp, hmem, hnum⟩
    have hall : ¬((values b).all pyIsNum = true) := by
      rw [List.all_eq_true]
      intro hforall
      have := hforall hp.2 ((mem_values_iff b hp.2).mpr ⟨hp, hmem, rfl⟩)
      rw [hnum] at this
      exact Bool.noConfusion this
    simp [validateF, hb, hall]
  · rintro hb hnums ⟨hp, hmem, hneg⟩
    have hall : (values b).all pyIsNum = true := by
      rw [List.all_eq_true]
      intro v hv
      obtain ⟨qp, hqmem, rfl⟩ := (mem_values_iff b v).mp hv
      exact hnums qp hqmem
    have hany : (values b).any pyNegative = true := by
      rw [List.any_eq_true]
      exact ⟨hp.2, (mem_values_iff b hp.2).mpr ⟨hp, hmem, rfl⟩, hneg⟩
    simp [validateF, hb, hall, hany]
  · intro hb hnums hnonneg hni
    have hall : (values b).all pyIsNum = true := by
      rw [List.all_eq_true]
      intro v hv
      obtain ⟨qp, hqmem, rfl⟩ := (mem_values_iff b v).mp hv
      exact hnums qp hqmem
    have hany : (values b).any pyNegative = false := by
      rw [← Bool.not_eq_true, List.any_eq_true]
      rintro ⟨v, hv, hneg⟩
      obtain ⟨qp, hqmem, rfl⟩ := (mem_values_iff b v).mp hv
      rw [hnonneg qp hqmem] at hneg
      exact Bool.noConfusion hneg
    have hsum : pySum (values b) = .nan ∨ pySum (values b) = .inf := by
      by_cases hnan : PyVal.nan ∈ values b
      · exact Or.inl (foldl_pyAdd_nan (values b) _ (Or.inl hnan))
      · right
        have hshape : ∀ v ∈ values b, (∃ q, v = PyVal.num q) ∨ v = PyVal.inf := by
          intro v hv
          obtain ⟨qp, hqmem, rfl⟩ := (mem_values_iff b v).mp hv
          rcases hqp : qp.2 with q | _ | _ | _ | _
          · exact Or.inl ⟨q, rfl⟩
          · exact absurd (hqp ▸ hnan) (hqp ▸ fun hc => hnan (hqp ▸ hv))
          · exact Or.inr rfl
          · exact absurd (hnonneg qp hqmem) (by rw [hqp]; simp [pyNegative])
          · exact absurd (hnums qp hqmem) (by rw [hqp]; simp [pyIsNum])
        have hinf : PyVal.inf ∈ values b := by
          rcases hni with hnan2 | hinf
          · exact absurd hnan2 hnan
          · exact hinf
        exact foldl_pyAdd_inf (values b) hshape _ (Or.inl ⟨0, rfl⟩) (Or.inl hinf)
    rcases hsum with hsum | hsum <;>
      simp [validateF, hb, hall, hany, hsum, pyLe]
  · intro hb hnums hnonneg
    have hall : (values b).all pyIsNum = true := by
      rw [List.all_eq_true]
      intro v hv
      obtain ⟨qp, hqmem, rfl⟩ := (mem_values_iff b v).mp hv
      obtain ⟨q, hq⟩ := hnums qp hqmem
      rw [hq]; rfl
    have hany : (values b).any pyNegative = false := by
      rw [← Bool.not_eq_true, List.any_eq_true]
      rintro ⟨v, hv, hneg⟩
      obtain ⟨qp, hqmem, rfl⟩ := (mem_values_iff b v).mp hv
      rw [hnonneg qp hqmem] at hneg
      exact Bool.noConfusion hneg
    have hsum : pySum (values b) = .num (finSum b) := by
      have := foldl_pyAdd_num (values b) (fun v hv => by
        obtain ⟨qp, hqmem, rfl⟩ := (mem_values_iff b v).mp hv
        exact hnums qp hqmem) 0
      rw [zero_add] at this
      exact this
    constructor <;>
      · simp only [validateF, if_neg hb, hall, hany, hsum, pyLe,
          not_true, if_neg, Bool.false_eq_true, if_false]
        split_ifs with hcond
        · simp only [decide_eq_true_eq] at hcond
          simp [hcond]
        · simp only [decide_eq_true_eq] at hcond
          simp [hcond]

/-- Witness for C8 amended: a finite uniform map validates successfully. -/
theorem C8_validate_witness :
    validateF [("A", PyVal.num (1/2)), ("B", PyVal.num (1/2))] = .ok () :=
  (((C8_validate_classification
      [("A", PyVal.num (1/2)), ("B", PyVal.num (1/2))]).2.2.2.2
    (by decide)
    (by
      intro hp hmem
      simp only [List.mem_cons, List.not_mem_nil, or_false] at hmem
      rcases hmem with rfl | rfl <;> exact ⟨1/2, rfl⟩)
    (by decide)).1).mpr (by decide)

end BayesSpec
